import Mathlib

/-!
Shallow embedding of the `csvparser` repository (TypeScript) in Lean 4.

Components embedded, faithful to the source files:
 * `src/csv-tokenizer.ts` (the functional variant that supports
   multi-character delimiters): `parseCSV`, `processLine`,
   `finalizeParsing`, and the character scanning loop of `processLine`
   (here `scanLine`, with an explicit fuel argument bounding the number
   of loop iterations; `processLine` passes `line.length` as fuel, which
   is exactly the number of iterations the JS `while` loop can make for
   any non-empty delimiter, since every iteration consumes at least one
   character).
 * `src/parser.ts` (the immutable variant with row validators and
   case-insensitive column matching): `Parser`, `col`, `val`, `parse`,
   `processRow`, `processColumn`, `findColumnMatchForColumn`,
   `findCaseInsensitiveMatch`, `handleMissingColumn`, `handleEmptyValue`,
   `transformAndValidate`, `applyTransform`.

Strings are modelled as `List Char`.  JavaScript `undefined` for an
optional field is modelled as `Option.none`.  JavaScript truthiness on
strings (`if (s)`) is modelled as the test against the empty list, and
truthiness on an optional boolean as the test against `some true`.
User-supplied transform callbacks may throw in JS; they are modelled as
functions into `Except`, with the thrown message as the error component.
-/

/-- Strings of the embedded program: JavaScript strings as lists of
characters. -/
abbrev Str : Type := List Char

/-- Whitespace recognised by JavaScript `String.prototype.trim`
(the characters relevant to this development; `trim` is only ever
applied to ordinary text here). -/
def jsWhitespace (c : Char) : Bool :=
  c == ' ' || c == '\t' || c == '\n' || c == '\r' ||
  c == Char.ofNat 11 || c == Char.ofNat 12 || c == Char.ofNat 160 ||
  c == Char.ofNat 65279

/-- JavaScript `s.trim()`: drop whitespace from both ends. -/
def jsTrim (s : Str) : Str :=
  ((s.dropWhile jsWhitespace).reverse.dropWhile jsWhitespace).reverse

/-- JavaScript `s.toLowerCase()` (ASCII-adequate, as used for header
matching). -/
def jsToLower (s : Str) : Str := s.map Char.toLower

/-- The caller-facing options object (`ParserOptions` in `types.ts`).
Every field is optional; `none` models an absent field. -/
structure ParserOptions where
  delimiter : Option Str := none
  quote : Option Char := none
  escape : Option Char := none
  skipEmptyLines : Option Bool := none
  skipRows : Option Nat := none
  trim : Option Bool := none
  caseInsensitiveColumnNames : Option Bool := none

/-- `ParseConfig` of `csv-tokenizer.ts`: the resolved character-level
configuration. -/
structure ParseConfig where
  delimiter : Str
  quote : Char
  escape : Char
  skipRows : Nat
  skipEmptyLines : Bool

/-- Resolution of tokenizer options at the top of `parseCSV`:
`options.delimiter || ','` (the empty string is falsy in JS, hence also
replaced by the default), `options.quote || '"'`, `options.escape || '"'`,
`options.skipRows || 0`, `options.skipEmptyLines !== false`. -/
def mkConfig (options : ParserOptions) : ParseConfig :=
  { delimiter :=
      match options.delimiter with
      | some d => if d = [] then [','] else d
      | none => [',']
    quote := options.quote.getD '"'
    escape := options.escape.getD '"'
    skipRows := options.skipRows.getD 0
    skipEmptyLines := options.skipEmptyLines ≠ some false }

/-- `ParseState` of `csv-tokenizer.ts`. -/
structure ParseState where
  currentField : Str
  currentRow : List Str
  inQuotes : Bool
  rows : List (List Str)
  headers : List Str
  lineIndex : Nat
deriving DecidableEq

/-- The initial accumulator of the `reduce` in `parseCSV`. -/
def initParseState : ParseState :=
  { currentField := [], currentRow := [], inQuotes := false,
    rows := [], headers := [], lineIndex := 0 }

/-- `ParsedCSV` of `csv-tokenizer.ts`. -/
structure ParsedCSV where
  headers : List Str
  rows : List (List Str)
deriving DecidableEq

/-- The character-scanning `while` loop inside `processLine`, scanning a
single physical line.  `prev` is the character at `position - 1` in the
line (`none` at position 0); it is consulted by the quote-opening rule.
The first argument is fuel: the loop runs while characters remain, and
each iteration consumes at least one character whenever the delimiter is
non-empty, so fuel `line.length` makes this an exact model of the JS
loop (an empty delimiter, which is unreachable through `mkConfig`, would
make the JS loop diverge). -/
def scanLine (cfg : ParseConfig) :
    Nat → List Char → Option Char → Str → List Str → Bool →
    Str × List Str × Bool
  | 0, _, _, field, row, inQ => (field, row, inQ)
  | _ + 1, [], _, field, row, inQ => (field, row, inQ)
  | fuel + 1, c :: rest, prev, field, row, inQ =>
    if inQ then
      if c = cfg.quote then
        if rest.head? = some cfg.quote ∧ cfg.escape = cfg.quote then
          scanLine cfg fuel rest.tail (some cfg.quote)
            (field ++ [cfg.quote]) row true
        else
          scanLine cfg fuel rest (some c) field row false
      else if c = cfg.escape ∧ cfg.escape ≠ cfg.quote ∧
          rest.head? = some cfg.quote then
        scanLine cfg fuel rest.tail (some cfg.quote)
          (field ++ [cfg.quote]) row true
      else
        scanLine cfg fuel rest (some c) (field ++ [c]) row true
    else
      if (c :: rest).take cfg.delimiter.length = cfg.delimiter then
        scanLine cfg fuel ((c :: rest).drop cfg.delimiter.length)
          cfg.delimiter.getLast? [] (row ++ [field]) false
      else if c = cfg.quote ∧
          (prev = none ∨ prev = cfg.delimiter.getLast? ∨ field = []) then
        scanLine cfg fuel rest (some c) field row true
      else
        scanLine cfg fuel rest (some c) (field ++ [c]) row false

/-- `processLine` of `csv-tokenizer.ts`. -/
def processLine (cfg : ParseConfig) (line : Str) (state : ParseState)
    (isLastLine : Bool) : ParseState :=
  if cfg.skipEmptyLines ∧ jsTrim line = [] ∧ state.inQuotes = false then
    state
  else
    let scanned := scanLine cfg line.length line none
      state.currentField state.currentRow state.inQuotes
    let field := scanned.1
    let row := scanned.2.1
    let inQ := scanned.2.2
    if inQ = true ∧ isLastLine = false then
      { state with
        currentField := field ++ ['\n']
        currentRow := row
        inQuotes := true }
    else
      let completedRow := row ++ [field]
      let shouldAddRow : Bool :=
        !cfg.skipEmptyLines ||
          completedRow.any (fun f => decide (f ≠ [])) ||
          decide (1 < completedRow.length)
      if state.lineIndex = 0 then
        { currentField := [], currentRow := [], inQuotes := false,
          rows := state.rows, headers := completedRow,
          lineIndex := state.lineIndex + 1 }
      else
        { currentField := [], currentRow := [], inQuotes := false,
          rows := if shouldAddRow then state.rows ++ [completedRow]
            else state.rows,
          headers := state.headers, lineIndex := state.lineIndex + 1 }

/-- `finalizeParsing` of `csv-tokenizer.ts`. -/
def finalizeParsing (state : ParseState) (cfg : ParseConfig) : ParseState :=
  if state.currentField ≠ [] ∨ 0 < state.currentRow.length then
    let finalRow := state.currentRow ++ [state.currentField]
    if state.lineIndex = 0 then
      { state with headers := finalRow }
    else
      let shouldAddRow : Bool :=
        !cfg.skipEmptyLines ||
          finalRow.any (fun f => decide (f ≠ [])) ||
          decide (1 < finalRow.length)
      { state with rows := if shouldAddRow then state.rows ++ [finalRow]
          else state.rows }
  else state

/-- Splitting at each newline character: the piece boundaries of
`input.split(/\r?\n/)` before carriage-return stripping. -/
def splitOnNewline : List Char → List (List Char)
  | [] => [[]]
  | c :: rest =>
    if c = '\n' then [] :: splitOnNewline rest
    else
      match splitOnNewline rest with
      | [] => [[c]]
      | l :: ls => (c :: l) :: ls

/-- Remove a single carriage return at the end of a piece, completing
the `/\r?\n/` pattern. -/
def stripTrailingCR (l : List Char) : List Char :=
  match l.getLast? with
  | some '\r' => l.dropLast
  | _ => l

/-- JavaScript `input.split(/\r?\n/)`. -/
def splitLines (input : Str) : List Str :=
  (splitOnNewline input).map stripTrailingCR

/-- The line-processing `reduce` of `parseCSV`, folding `processLine`
over the retained `(originalIndex, line)` pairs. -/
def runLines (cfg : ParseConfig) (n : Nat) :
    ParseState → List (Nat × Str) → ParseState
  | st, [] => st
  | st, p :: rest =>
    runLines cfg n (processLine cfg p.2 st (decide (p.1 = n - 1))) rest

/-- The successive states produced by the fold of `runLines`, one per
processed line (used to express that no physical line ever ends inside
an open quoted field). -/
def runStates (cfg : ParseConfig) (n : Nat) :
    ParseState → List (Nat × Str) → List ParseState
  | _, [] => []
  | st, p :: rest =>
    let st' := processLine cfg p.2 st (decide (p.1 = n - 1))
    st' :: runStates cfg n st' rest

/-- The `relevantLines` computation of `parseCSV`: lines paired with
their original indices, those before `skipRows` filtered out. -/
def relevantLines (cfg : ParseConfig) (input : Str) : List (Nat × Str) :=
  (splitLines input).enum.filter (fun p => decide (cfg.skipRows ≤ p.1))

/-- `parseCSV` of `csv-tokenizer.ts`. -/
def parseCSV (input : Str) (options : ParserOptions) : ParsedCSV :=
  let cfg := mkConfig options
  let lines := splitLines input
  let finalState := runLines cfg lines.length initParseState
    (relevantLines cfg input)
  let result := finalizeParsing finalState cfg
  { headers := result.headers, rows := result.rows }

/-- All intermediate tokenizer states of a `parseCSV` call. -/
def tokenizerStates (input : Str) (options : ParserOptions) :
    List ParseState :=
  let cfg := mkConfig options
  runStates cfg (splitLines input).length initParseState
    (relevantLines cfg input)

/-- Values of the dynamically typed host language, as they arise in this
program: raw strings, `null` (the nullable fallback), and values
produced by user transforms (numbers, booleans). -/
inductive JSValue where
  | null
  | str (s : Str)
  | num (n : Int)
  | boolean (b : Bool)
deriving DecidableEq

/-- A materialized record: a JS object, i.e. an ordered list of
property/value pairs with unique property names. -/
abbrev Record : Type := List (Str × JSValue)

/-- JS object update `{ ...acc, [k]: v }`: an existing property keeps
its position and gets the new value, a new property is appended. -/
def setProp (record : Record) (k : Str) (v : JSValue) : Record :=
  if record.any (fun q => decide (q.1 = k)) then
    record.map (fun q => if q.1 = k then (k, v) else q)
  else record ++ [(k, v)]

/-- The discriminant of `ParseError` (`type` field in `types.ts`). -/
inductive ErrorKind where
  | transform
  | validation
  | missing
  | rowValidation
deriving DecidableEq

/-- `ParseError` of `types.ts` (`CellError` or `RowValidationError`);
`column` is `none` exactly for row-validation errors. -/
structure ParseError where
  row : Nat
  column : Option Str
  property : Str
  value : Str
  message : Str
  type : ErrorKind
deriving DecidableEq

/-- `ColumnOptions` of `types.ts`.  A transform may throw in JS; thrown
messages are the `Except.error` component. -/
structure ColumnOptions where
  transform : Option (Str → Except Str JSValue) := none
  validate : Option (JSValue → Option Str) := none
  nullable : Option Bool := none
  defaultValue : Option JSValue := none
  trim : Option Bool := none
  caseInsensitiveColumnNames : Option Bool := none

/-- `ColumnDefinition` of `types.ts`. -/
structure ColumnDefinition where
  csvNames : List Str
  propertyName : Str
  options : ColumnOptions

/-- `RowValidator` of `types.ts`. -/
abbrev RowValidator : Type := Record → Option Str

/-- `ParseResult` of `types.ts`. -/
structure ParseResult where
  success : List Record
  errors : List ParseError
  hasErrors : Bool
deriving DecidableEq

/-- The parser value of `parser.ts`: column list, resolved options and
row validators. -/
structure Parser where
  columns : List ColumnDefinition
  options : ParserOptions
  rowValidators : List RowValidator

/-- The `Parser` constructor: defaults overridden by the fields present
in the caller's options object (`{ delimiter: ',', ..., ...options }`). -/
def Parser.new (options : ParserOptions) : Parser :=
  { columns := []
    options :=
      { delimiter := options.delimiter <|> some [',']
        quote := options.quote <|> some '"'
        escape := options.escape <|> some '"'
        skipEmptyLines := options.skipEmptyLines <|> some true
        skipRows := options.skipRows <|> some 0
        trim := options.trim <|> some true
        caseInsensitiveColumnNames :=
          options.caseInsensitiveColumnNames <|> some false }
    rowValidators := [] }

/-- The column definition built inside `Parser.col`: the caller's
options merged over the parser-level `trim` and
`caseInsensitiveColumnNames` defaults
(`{ trim: this.options.trim, caseInsensitiveColumnNames:
this.options.caseInsensitiveColumnNames, ...options }`). -/
def mergedColumnDef (p : Parser) (csvNames : List Str)
    (propertyName : Str) (options : ColumnOptions) : ColumnDefinition :=
  { csvNames := csvNames
    propertyName := propertyName
    options :=
      { options with
        trim := options.trim <|> p.options.trim
        caseInsensitiveColumnNames :=
          options.caseInsensitiveColumnNames <|>
            p.options.caseInsensitiveColumnNames } }

/-- `Parser.col`: returns a new parser value whose column list extends
the receiver's (the receiver is not mutated; its fields are shared).
The JS `string | string[]` first argument is taken here already in
array form. -/
def Parser.col (p : Parser) (csvColumnName : List Str)
    (propertyName : Str) (options : ColumnOptions) : Parser :=
  { columns := p.columns ++ [mergedColumnDef p csvColumnName propertyName options]
    options := p.options
    rowValidators := p.rowValidators }

/-- `Parser.val`: returns a new parser value with one more row
validator. -/
def Parser.val (p : Parser) (validator : RowValidator) : Parser :=
  { columns := p.columns
    options := p.options
    rowValidators := p.rowValidators ++ [validator] }

/-- The header-name → index map of `Parser.parse`, modelled as its
entry list in insertion order (JS `Map` iterates in insertion order;
`set` on an existing key updates the value in place). -/
abbrev HeaderIndex : Type := List (Str × Nat)

/-- JS `map.get(k)`. -/
def mapGet (m : HeaderIndex) (k : Str) : Option Nat :=
  (m.find? (fun q => decide (q.1 = k))).map (fun q => q.2)

/-- JS `map.set(k, v)`: update in place if the key exists, else append. -/
def mapSet (m : HeaderIndex) (k : Str) (v : Nat) : HeaderIndex :=
  if m.any (fun q => decide (q.1 = k)) then
    m.map (fun q => if q.1 = k then (k, v) else q)
  else m ++ [(k, v)]

/-- The `headers.reduce((map, header, index) => map.set(header, index),
new Map())` computation at the top of `Parser.parse`. -/
def buildHeaderIndex (headers : List Str) : HeaderIndex :=
  headers.enum.foldl (fun m q => mapSet m q.2 q.1) []

/-- `ColumnMatch` of `parser.ts`. -/
structure ColumnMatch where
  columnIndex : Nat
  columnName : Str
deriving DecidableEq

/-- The exact-match pass of `findColumnMatchForColumn`: the first alias
(in declaration order) present in the header map, with its mapped
index. -/
def findExactMatch (csvNames : List Str) (headerIndex : HeaderIndex) :
    Option ColumnMatch :=
  match csvNames.find? (fun name => (mapGet headerIndex name).isSome) with
  | some name =>
    (mapGet headerIndex name).map
      (fun i => { columnIndex := i, columnName := name })
  | none => none

/-- `findCaseInsensitiveMatch` of `parser.ts`: aliases in declaration
order; for each, the first map entry (in insertion order) whose
lowercased key equals the lowercased alias; the reported name is the
header's original-case string. -/
def findCaseInsensitiveMatch : List Str → HeaderIndex → Option ColumnMatch
  | [], _ => none
  | csvName :: rest, headerIndex =>
    match headerIndex.find?
        (fun q => decide (jsToLower q.1 = jsToLower csvName)) with
    | some q => some { columnIndex := q.2, columnName := q.1 }
    | none => findCaseInsensitiveMatch rest headerIndex

/-- `findColumnMatchForColumn` of `parser.ts`: exact match first; only
when no alias matches exactly, and case-insensitive matching is enabled
(column-level option, falling back to the parser-level option via `??`),
the case-insensitive scan runs. -/
def findColumnMatchForColumn (parserCI : Option Bool)
    (column : ColumnDefinition) (headerIndex : HeaderIndex) :
    Option ColumnMatch :=
  match findExactMatch column.csvNames headerIndex with
  | some m => some m
  | none =>
    if (column.options.caseInsensitiveColumnNames <|> parserCI) = some true
    then findCaseInsensitiveMatch column.csvNames headerIndex
    else none

/-- The `Column "…" or "…" not found` message of `handleMissingColumn`. -/
def missingMessage (csvNames : List Str) : Str :=
  ("Column \"").toList ++
    List.intercalate (("\" or \"").toList) csvNames ++
    ("\" not found").toList

/-- `FieldResult` of `parser.ts`: a contributed value or a cell error. -/
inductive FieldResult where
  | value (v : JSValue)
  | error (e : ParseError)
deriving DecidableEq

/-- `handleMissingColumn` of `parser.ts`: no alias matched any header.
A column that is neither nullable nor defaulted yields a `missing`
error; otherwise the default value (or `null` without one) is
contributed. -/
def handleMissingColumn (column : ColumnDefinition) (rowIndex : Nat) :
    FieldResult :=
  if column.options.nullable ≠ some true ∧
      column.options.defaultValue = none then
    .error
      { row := rowIndex
        column := some (column.csvNames.headD [])
        property := column.propertyName
        value := []
        message := missingMessage column.csvNames
        type := .missing }
  else
    .value (column.options.defaultValue.getD JSValue.null)

/-- `handleEmptyValue` of `parser.ts`: the matched cell is empty after
trimming.  Nullable wins (contributes `null`), then a configured
default, else a `validation` error. -/
def handleEmptyValue (column : ColumnDefinition) (columnName : Str)
    (rowIndex : Nat) : FieldResult :=
  if column.options.nullable = some true then
    .value JSValue.null
  else
    match column.options.defaultValue with
    | some d => .value d
    | none =>
      .error
        { row := rowIndex
          column := some columnName
          property := column.propertyName
          value := []
          message := ("Required field is empty").toList
          type := .validation }

/-- `applyTransform` of `parser.ts`: no transform passes the raw string
through; a transform is invoked with its thrown message caught as the
error component. -/
def applyTransform (value : Str) :
    Option (Str → Except Str JSValue) → Except Str JSValue
  | none => .ok (.str value)
  | some t => t value

/-- `transformAndValidate` of `parser.ts`.  A failed transform yields a
`transform` error; a validate callback returning a truthy (non-empty)
message yields a `validation` error; otherwise the value is
contributed. -/
def transformAndValidate (value : Str) (column : ColumnDefinition)
    (columnName : Str) (rowIndex : Nat) : FieldResult :=
  match applyTransform value column.options.transform with
  | .error msg =>
    .error
      { row := rowIndex
        column := some columnName
        property := column.propertyName
        value := value
        message := msg
        type := .transform }
  | .ok v =>
    let validationError :=
      match column.options.validate with
      | some f => f v
      | none => none
    match validationError with
    | some msg =>
      if msg = [] then .value v
      else
        .error
          { row := rowIndex
            column := some columnName
            property := column.propertyName
            value := value
            message := msg
            type := .validation }
    | none => .value v

/-- `processColumn` of `parser.ts`. -/
def processColumn (p : Parser) (column : ColumnDefinition)
    (row : List Str) (rowIndex : Nat) (headerIndex : HeaderIndex) :
    FieldResult :=
  match findColumnMatchForColumn p.options.caseInsensitiveColumnNames
      column headerIndex with
  | none => handleMissingColumn column rowIndex
  | some m =>
    let rawValue := (row.get? m.columnIndex).getD []
    let trimmedValue :=
      if column.options.trim ≠ some false then jsTrim rawValue
      else rawValue
    if trimmedValue = [] then
      handleEmptyValue column m.columnName rowIndex
    else
      transformAndValidate trimmedValue column m.columnName rowIndex

/-- The `columnResults` list of `processRow`: each declared column with
its field result, in declaration order. -/
def columnResults (p : Parser) (row : List Str) (rowIndex : Nat)
    (headerIndex : HeaderIndex) : List (ColumnDefinition × FieldResult) :=
  p.columns.map (fun column =>
    (column, processColumn p column row rowIndex headerIndex))

/-- The column-level error list of `processRow` (defined errors kept,
in column order). -/
def columnErrors (p : Parser) (row : List Str) (rowIndex : Nat)
    (headerIndex : HeaderIndex) : List ParseError :=
  (columnResults p row rowIndex headerIndex).filterMap
    (fun q => match q.2 with | .error e => some e | .value _ => none)

/-- The record built by the `reduce` of `processRow`: every contributed
value assigned to its property. -/
def columnRecord (p : Parser) (row : List Str) (rowIndex : Nat)
    (headerIndex : HeaderIndex) : Record :=
  (columnResults p row rowIndex headerIndex).foldl
    (fun acc q =>
      match q.2 with
      | .value v => setProp acc q.1.propertyName v
      | .error _ => acc)
    []

/-- Serialisation of a value, for the `JSON.stringify(record)` snapshot
stored in row-validation errors (no claim inspects this payload). -/
def stringifyValue : JSValue → Str
  | .null => ("null").toList
  | .str s => '"' :: (s ++ ['"'])
  | .num n => (toString n).toList
  | .boolean b => (toString b).toList

/-- Serialisation of the property list of a record. -/
def stringifyProps : Record → Str
  | [] => []
  | [q] => '"' :: q.1 ++ '"' :: ':' :: stringifyValue q.2
  | q :: rest =>
    ('"' :: q.1 ++ '"' :: ':' :: stringifyValue q.2) ++
      ',' :: stringifyProps rest

/-- `JSON.stringify` of a record. -/
def stringifyRecord (r : Record) : Str :=
  Char.ofNat 123 :: (stringifyProps r ++ [Char.ofNat 125])

/-- The row-validation error built inside `processRow`: fixed `_row`
property sentinel, serialised record snapshot, no column name. -/
def rowValidationError (rowIndex : Nat) (record : Record)
    (message : Str) : ParseError :=
  { row := rowIndex
    column := none
    property := ("_row").toList
    value := stringifyRecord record
    message := message
    type := .rowValidation }

/-- `RowResult` of `parser.ts`. -/
structure RowResult where
  record : Record
  errors : List ParseError
deriving DecidableEq

/-- `processRow` of `parser.ts`: column errors and record, then — only
when there is no column error and at least one validator — each row
validator applied to the record, a truthy (non-empty) returned message
becoming a row-validation error, the misses filtered out. -/
def processRow (p : Parser) (row : List Str) (rowIndex : Nat)
    (headerIndex : HeaderIndex) : RowResult :=
  let errors := columnErrors p row rowIndex headerIndex
  let record := columnRecord p row rowIndex headerIndex
  let errors' :=
    if errors.length = 0 ∧ 0 < p.rowValidators.length then
      errors ++
        ((p.rowValidators.map (fun validator =>
          match validator record with
          | some msg =>
            if msg = [] then none
            else some (rowValidationError rowIndex record msg)
          | none => none)).filterMap id)
    else errors
  { record := record, errors := errors' }

/-- The per-row results of a `Parser.parse` call: tokenize, build the
header map once, process every data row independently. -/
def rowResults (p : Parser) (input : Str) : List RowResult :=
  let parsed := parseCSV input p.options
  let headerIndex := buildHeaderIndex parsed.headers
  parsed.rows.enum.map (fun q => processRow p q.2 q.1 headerIndex)

/-- `Parser.parse` of `parser.ts`: successes are the records of the
rows with an empty error list; the error list is the concatenation of
all rows' errors in row order. -/
def Parser.parse (p : Parser) (input : Str) : ParseResult :=
  let results := rowResults p input
  let success :=
    (results.filter (fun r => decide (r.errors.length = 0))).map
      (fun r => r.record)
  let errors := (results.map (fun r => r.errors)).flatten
  { success := success
    errors := errors
    hasErrors := decide (0 < errors.length) }


/-! ### Header-map characterisation -/

/-- The index of the last occurrence of `k` among the headers, counting
from start index `i` (the headers are enumerated from `i`). -/
def lastIdxFrom (k : Str) : Nat → List Str → Option Nat
  | _, [] => none
  | i, h :: t =>
    match lastIdxFrom k (i + 1) t with
    | some j => some j
    | none => if h = k then some i else none

/-- The index of the last occurrence of a header string in the header
row (`none` when it does not occur). -/
def lastOccurrenceIdx (headers : List Str) (k : Str) : Option Nat :=
  lastIdxFrom k 0 headers

lemma find?_map_update (m : HeaderIndex) (k : Str) (v : Nat)
    (h : ∃ q ∈ m, q.1 = k) :
    (m.map (fun q => if q.1 = k then (k, v) else q)).find?
      (fun q => decide (q.1 = k)) = some (k, v) := by
  induction m with
  | nil => simp at h
  | cons q rest ih =>
    by_cases hq : q.1 = k
    · simp [List.find?_cons, hq]
    · obtain ⟨r, hr, hrk⟩ := h
      rcases List.mem_cons.mp hr with rfl | hr'
      · exact absurd hrk hq
      · simp only [List.map_cons, if_neg hq]
        rw [List.find?_cons_of_neg _ (by simpa using hq)]
        exact ih ⟨r, hr', hrk⟩

lemma mapGet_mapSet_self (m : HeaderIndex) (k : Str) (v : Nat) :
    mapGet (mapSet m k v) k = some v := by
  unfold mapGet mapSet
  by_cases h : m.any (fun q => decide (q.1 = k))
  · rw [if_pos h, find?_map_update]
    · rfl
    · simpa using h
  · rw [if_neg h, List.find?_append]
    have hnone : m.find? (fun q => decide (q.1 = k)) = none := by
      rw [List.find?_eq_none]
      intro q hq
      simp only [List.any_eq_true, not_exists, not_and] at h
      simpa using fun hk => by simpa [hk] using h q hq
    simp [hnone]

lemma find?_map_update_ne (m : HeaderIndex) (k k' : Str) (v : Nat)
    (h : k' ≠ k) :
    (m.map (fun q => if q.1 = k then (k, v) else q)).find?
        (fun q => decide (q.1 = k')) =
      m.find? (fun q => decide (q.1 = k')) := by
  induction m with
  | nil => rfl
  | cons q rest ih =>
    by_cases hq : q.1 = k
    · rw [List.map_cons, if_pos hq,
        List.find?_cons_of_neg _ (by simpa using h.symm),
        List.find?_cons_of_neg _ (by simp [hq, h.symm]), ih]
    · by_cases hq' : q.1 = k'
      · rw [List.map_cons, if_neg hq,
          List.find?_cons_of_pos _ (by simpa using hq'),
          List.find?_cons_of_pos _ (by simpa using hq')]
      · rw [List.map_cons, if_neg hq,
          List.find?_cons_of_neg _ (by simpa using hq'),
          List.find?_cons_of_neg _ (by simpa using hq'), ih]

lemma mapGet_mapSet_ne (m : HeaderIndex) (k k' : Str) (v : Nat)
    (h : k' ≠ k) :
    mapGet (mapSet m k v) k' = mapGet m k' := by
  unfold mapGet mapSet
  by_cases hm : m.any (fun q => decide (q.1 = k))
  · rw [if_pos hm, find?_map_update_ne m k k' v h]
  · rw [if_neg hm, List.find?_append]
    have : List.find? (fun q => decide (q.1 = k')) [(k, v)] = none := by
      simp [List.find?, h.symm]
    simp [this]

lemma mapGet_foldl_enumFrom (hs : List Str) :
    ∀ (i : Nat) (m : HeaderIndex) (k : Str),
      mapGet ((List.enumFrom i hs).foldl (fun m q => mapSet m q.2 q.1) m) k =
        match lastIdxFrom k i hs with
        | some j => some j
        | none => mapGet m k := by
  induction hs with
  | nil => intro i m k; simp [lastIdxFrom, List.enumFrom]
  | cons h t ih =>
    intro i m k
    simp only [List.enumFrom, List.foldl_cons]
    rw [ih (i + 1)]
    simp only [lastIdxFrom]
    cases hl : lastIdxFrom k (i + 1) t with
    | some j => simp
    | none =>
      by_cases hk : h = k
      · subst hk
        simp [mapGet_mapSet_self]
      · simp only [if_neg hk]
        exact mapGet_mapSet_ne m h k i (fun he => hk he.symm)

/-- C1 (amended): in every parse call the header map sends each header
string to the index of its LAST occurrence in the header row (JS
`Map.set` overwrites the previously stored index), and an exact alias
match therefore resolves to the last occurrence's index. -/
theorem c1_header_map_last_occurrence :
    ∀ (headers : List Str) (k : Str),
      mapGet (buildHeaderIndex headers) k = lastOccurrenceIdx headers k ∧
      findExactMatch [k] (buildHeaderIndex headers) =
        (lastOccurrenceIdx headers k).map
          (fun i => { columnIndex := i, columnName := k }) := by
  intro headers k
  have hmap : mapGet (buildHeaderIndex headers) k = lastOccurrenceIdx headers k := by
    unfold buildHeaderIndex lastOccurrenceIdx
    rw [List.enum, mapGet_foldl_enumFrom]
    cases lastIdxFrom k 0 headers with
    | some j => rfl
    | none => rfl
  refine ⟨hmap, ?_⟩
  unfold findExactMatch
  cases hg : mapGet (buildHeaderIndex headers) k with
  | none =>
    have hl : lastOccurrenceIdx headers k = none := by rw [← hmap]; exact hg
    rw [List.find?_cons_of_neg _ (by simp [hg])]
    simp [hl]
  | some j =>
    have hl : lastOccurrenceIdx headers k = some j := by rw [← hmap]; exact hg
    rw [List.find?_cons_of_pos _ (by simp [hg])]
    simp [hg, hl]

/-- C1 counterexample: with the duplicated header row `A,A`, the map
sends `A` to index 1 (the last occurrence), not 0 (the first), and a
parse of `A,A\nx,y` with a column aliasing `A` reads the row field at
index 1 (`y`), not index 0 (`x`). -/
theorem c1_counterexample :
    mapGet (buildHeaderIndex [("A").toList, ("A").toList]) (("A").toList) ≠
      some 0 ∧
    mapGet (buildHeaderIndex [("A").toList, ("A").toList]) (("A").toList) =
      some 1 ∧
    ((Parser.new {}).col [("A").toList] (("a").toList) {}).parse
        (("A,A\nx,y").toList) =
      { success := [[((("a").toList), JSValue.str (("y").toList))]]
        errors := []
        hasErrors := false } := by
  refine ⟨by decide, by decide, by decide⟩

/-! ### Column matching -/

/-- The C2 scenario column: a single alias `Name` with case-insensitive
matching enabled. -/
def c2Column : ColumnDefinition :=
  { csvNames := [("Name").toList]
    propertyName := ("name").toList
    options := { caseInsensitiveColumnNames := some true } }

/-- The C2 scenario header map, built from the header row
`["Name", "name"]`. -/
def c2Headers : HeaderIndex :=
  buildHeaderIndex [("Name").toList, ("name").toList]

/-- A column whose first alias `a` only matches case-insensitively
while its second alias `B` matches exactly. -/
def c2ColumnB : ColumnDefinition :=
  { csvNames := [("a").toList, ("B").toList]
    propertyName := ("b").toList
    options := { caseInsensitiveColumnNames := some true } }

/-- The header map for the header row `["A", "B"]`. -/
def c2HeadersB : HeaderIndex :=
  buildHeaderIndex [("A").toList, ("B").toList]

/-- C2: an exact (case-sensitive) alias match is always chosen, and the
case-insensitive scan only runs when no alias matches exactly.  In
particular, with headers `["Name", "name"]` and a column aliasing
`Name` with case-insensitive matching enabled, the header `Name` at
index 0 is selected; and an exact match of a later-priority alias still
beats a case-insensitive possibility of an earlier-priority alias. -/
theorem c2_exact_match_priority :
    (∀ (parserCI : Option Bool) (column : ColumnDefinition)
        (headerIndex : HeaderIndex) (m : ColumnMatch),
      findExactMatch column.csvNames headerIndex = some m →
      findColumnMatchForColumn parserCI column headerIndex = some m) ∧
    findColumnMatchForColumn (some true) c2Column c2Headers =
      some { columnIndex := 0, columnName := ("Name").toList } ∧
    findColumnMatchForColumn (some true) c2ColumnB c2HeadersB =
      some { columnIndex := 1, columnName := ("B").toList } := by
  refine ⟨?_, by decide, by decide⟩
  intro parserCI column headerIndex m h
  unfold findColumnMatchForColumn
  rw [h]

/-- Witness for C2: the universal part applied at a concrete column and
header map with the exact-match hypothesis discharged by computation. -/
theorem c2_exact_match_priority_witness :
    findColumnMatchForColumn none c2Column
        (buildHeaderIndex [("Name").toList]) =
      some { columnIndex := 0, columnName := ("Name").toList } :=
  c2_exact_match_priority.1 none c2Column
    (buildHeaderIndex [("Name").toList])
    { columnIndex := 0, columnName := ("Name").toList } (by decide)

/-! ### Tokenizer scenarios -/

/-- C3: fields are split on a full match of the multi-character
delimiter string: tokenizing `Name::Value\nJohn::123` with delimiter
`::` yields header `["Name", "Value"]` and exactly the one data row
`["John", "123"]`. -/
theorem c3_multichar_delimiter :
    parseCSV ("Name::Value\nJohn::123").toList
        { delimiter := some (("::").toList) } =
      { headers := [("Name").toList, ("Value").toList]
        rows := [[("John").toList, ("123").toList]] } := by
  decide

/-! ### Builder immutability -/

/-- C9: `col` returns a new parser value whose column list is the
receiver's list extended by the one merged column definition, with the
options and row-validator list of the receiver taken over unchanged.
In this pure embedding the receiver itself is a value that cannot be
mutated, so parsing with the original parser afterwards trivially gives
the same result as before the call; the theorem records the
relationship between the receiver's and the new parser's fields. -/
theorem c9_col_builds_new_value :
    ∀ (p : Parser) (csvColumnName : List Str) (propertyName : Str)
      (options : ColumnOptions),
      (p.col csvColumnName propertyName options).columns =
        p.columns ++ [mergedColumnDef p csvColumnName propertyName options] ∧
      (p.col csvColumnName propertyName options).options = p.options ∧
      (p.col csvColumnName propertyName options).rowValidators =
        p.rowValidators := by
  intro p c n o
  exact ⟨rfl, rfl, rfl⟩

/-! ### Nullable and default fallbacks -/

/-- C10: for a column that is both nullable and defaulted, the two
fallback paths differ: an empty (after trimming) matched cell
materialises to `null` (nullable wins in `handleEmptyValue`), while a
column matching no header at all materialises to the default value
(`handleMissingColumn`). -/
theorem c10_nullable_default_priority :
    ∀ (column : ColumnDefinition) (columnName : Str) (rowIndex : Nat)
      (d : JSValue),
      column.options.nullable = some true →
      column.options.defaultValue = some d →
      handleEmptyValue column columnName rowIndex =
        FieldResult.value JSValue.null ∧
      handleMissingColumn column rowIndex = FieldResult.value d := by
  intro column columnName rowIndex d hn hd
  constructor
  · unfold handleEmptyValue
    rw [if_pos hn]
  · unfold handleMissingColumn
    rw [if_neg (by simp [hn]), hd]
    rfl

/-- The concrete nullable-and-defaulted column used to witness C10. -/
def c10Column : ColumnDefinition :=
  { csvNames := [("x").toList]
    propertyName := ("x").toList
    options :=
      { nullable := some true
        defaultValue := some (JSValue.str (("d").toList)) } }

/-- Witness for C10 at a concrete column. -/
theorem c10_nullable_default_priority_witness :
    handleEmptyValue c10Column (("x").toList) 0 =
      FieldResult.value JSValue.null ∧
    handleMissingColumn c10Column 0 =
      FieldResult.value (JSValue.str (("d").toList)) :=
  c10_nullable_default_priority c10Column (("x").toList) 0
    (JSValue.str (("d").toList)) rfl rfl

/-! ### Row atomicity and error aggregation -/

lemma length_filter_split (l : List α) (f : α → Bool) :
    (l.filter f).length + (l.filter (fun a => !(f a))).length = l.length := by
  induction l with
  | nil => rfl
  | cons a t ih =>
    cases hfa : f a <;> simp [List.filter_cons, hfa] <;> omega

/-- C4: the success list of a parse is exactly the records of the rows
whose total error list (column-level and row-validation errors
combined, as collected by `processRow`) is empty, in row order; the
error list is the concatenation of all rows' errors; and every row is
accounted for either in the success list or among the rows with at
least one error, so no partial record of an errored row is ever
emitted. -/
theorem c4_row_atomicity :
    ∀ (p : Parser) (input : Str),
      (p.parse input).success =
        ((rowResults p input).filter
          (fun r => decide (r.errors.length = 0))).map (fun r => r.record) ∧
      (p.parse input).errors =
        ((rowResults p input).map (fun r => r.errors)).flatten ∧
      (p.parse input).success.length +
          ((rowResults p input).filter
            (fun r => !(decide (r.errors.length = 0)))).length =
        (rowResults p input).length := by
  intro p input
  refine ⟨rfl, rfl, ?_⟩
  show (((rowResults p input).filter
      (fun r => decide (r.errors.length = 0))).map (fun r => r.record)).length + _ = _
  rw [List.length_map]
  exact length_filter_split (rowResults p input) _

/-! ### Row validators -/

/-- A row validator returning the empty string: a non-`undefined`
return value that is falsy in JS. -/
def c5Validator : RowValidator := fun _ => some []

/-- A parser with no columns and the single empty-string-returning row
validator. -/
def c5Parser : Parser := (Parser.new {}).val c5Validator

/-- C5 counterexample: the validator returns a non-`undefined` value
(the empty string) on the record of the only data row of `h\nx`, the
row has zero column-level errors, yet the parse produces zero errors —
the claim predicts exactly one row-validation error.  The code tests
the returned message for JS truthiness, not for being defined. -/
theorem c5_counterexample :
    c5Validator [] = some [] ∧
    columnErrors c5Parser [("x").toList] 0
        (buildHeaderIndex [("h").toList]) = [] ∧
    (c5Parser.parse (("h\nx").toList)).errors = [] ∧
    (c5Parser.parse (("h\nx").toList)).hasErrors = false := by
  refine ⟨rfl, by decide, by decide, by decide⟩

/-- C5 (amended): for every row, if the row has column-level errors its
error list is exactly those column errors and no validator contributes
(validators are gated on a clean row); if it has none, every configured
validator is applied to the materialised record in declaration order
with no short-circuiting, and each return value that is non-`undefined`
AND non-empty (JS truthiness) contributes exactly one
row-validation-kind error. -/
theorem c5_row_validator_gating :
    ∀ (p : Parser) (row : List Str) (rowIndex : Nat)
      (headerIndex : HeaderIndex),
      (processRow p row rowIndex headerIndex).errors =
        if columnErrors p row rowIndex headerIndex = [] then
          p.rowValidators.filterMap (fun validator =>
            match validator (columnRecord p row rowIndex headerIndex) with
            | some msg =>
              if msg = [] then none
              else some (rowValidationError rowIndex
                (columnRecord p row rowIndex headerIndex) msg)
            | none => none)
        else columnErrors p row rowIndex headerIndex := by
  intro p row rowIndex headerIndex
  simp only [processRow]
  by_cases he : columnErrors p row rowIndex headerIndex = []
  · rw [if_pos he]
    cases hv : p.rowValidators with
    | nil => simp [he, hv]
    | cons v vs =>
      rw [if_pos (by simp [he, hv])]
      rw [he, List.nil_append, List.filterMap_map]
      rfl
  · rw [if_neg he,
      if_neg (by simp only [List.length_eq_zero, not_and]; exact fun h => absurd h he)]

/-! ### Tokenizer totality and quote handling -/

/-- C6: tokenization is a total function (this embedding's `parseCSV`
returns a `ParsedCSV` for every input and options value, with no error
path; termination of the character loop is secured by the
`line.length` fuel, which is exact for every configuration reachable
through `mkConfig`).  Processing the last physical line always leaves
the quoted state closed — an input that ends while still inside a
quoted field finalizes the field as-is instead of failing — and on the
concrete input `h\n"abc`, whose quote is never closed, the accumulated
field `abc` is returned as the single data row. -/
theorem c6_tokenizer_never_fails :
    (∀ (cfg : ParseConfig) (line : Str) (state : ParseState),
      (processLine cfg line state true).inQuotes = false) ∧
    parseCSV ("h\n\"abc").toList {} =
      { headers := [("h").toList], rows := [[("abc").toList]] } := by
  refine ⟨?_, by decide⟩
  intro cfg line state
  simp only [processLine]
  by_cases hg : cfg.skipEmptyLines ∧ jsTrim line = [] ∧ state.inQuotes = false
  · rw [if_pos hg]
    exact hg.2.2
  · rw [if_neg hg]
    split
    · next h => exact absurd h.2 (by simp)
    · split <;> rfl

/-- C7: inside a quoted field, when the escape character differs from
the quote character, the scanner at an occurrence of the escape
character immediately followed by the quote character appends exactly
one literal quote character to the current field, consumes both
characters, and continues in the quoted state. -/
theorem c7_escape_then_quote :
    ∀ (cfg : ParseConfig) (fuel : Nat) (rest : List Char)
      (prev : Option Char) (field : Str) (row : List Str),
      cfg.escape ≠ cfg.quote →
      scanLine cfg (fuel + 1) (cfg.escape :: cfg.quote :: rest) prev field
          row true =
        scanLine cfg fuel rest (some cfg.quote) (field ++ [cfg.quote]) row
          true := by
  intro cfg fuel rest prev field row h
  simp only [scanLine]
  rw [if_pos trivial, if_neg h, if_pos ⟨trivial, h, rfl⟩]
  rfl

/-- The configuration used to witness C7: backslash escape, double
quote. -/
def c7Config : ParseConfig :=
  { delimiter := [','], quote := '"', escape := '\\',
    skipRows := 0, skipEmptyLines := true }

/-- Witness for C7 at a concrete configuration and scanner state. -/
theorem c7_escape_then_quote_witness :
    scanLine c7Config 1 ['\\', '"'] none [] [] true =
      scanLine c7Config 0 [] (some '"') ['"'] [] true :=
  c7_escape_then_quote c7Config 0 [] none [] [] (by decide)

/-! ### Row count per physical line -/

lemma processLine_complete (cfg : ParseConfig)
    (hse : cfg.skipEmptyLines = false)
    (line : Str) (st : ParseState) (isLastLine : Bool)
    (hq : (processLine cfg line st isLastLine).inQuotes = false) :
    (processLine cfg line st isLastLine).currentField = [] ∧
    (processLine cfg line st isLastLine).currentRow = [] ∧
    (processLine cfg line st isLastLine).lineIndex = st.lineIndex + 1 ∧
    (processLine cfg line st isLastLine).rows.length =
      st.rows.length + (if st.lineIndex = 0 then 0 else 1) := by
  simp only [processLine, hse] at hq ⊢
  rw [if_neg (by simp)] at hq ⊢
  by_cases hc : (scanLine cfg line.length line none st.currentField
      st.currentRow st.inQuotes).2.2 = true ∧ isLastLine = false
  · rw [if_pos hc] at hq
    exact absurd hq (by simp)
  · rw [if_neg hc] at hq ⊢
    by_cases hl : st.lineIndex = 0
    · rw [if_pos hl] at hq ⊢
      simp [hl]
    · rw [if_neg hl] at hq ⊢
      simp [hl]

lemma runLines_count (cfg : ParseConfig) (hse : cfg.skipEmptyLines = false)
    (n : Nat) :
    ∀ (ls : List (Nat × Str)) (st : ParseState),
      (∀ s ∈ runStates cfg n st ls, s.inQuotes = false) →
      st.lineIndex ≠ 0 → st.currentField = [] → st.currentRow = [] →
      (runLines cfg n st ls).rows.length = st.rows.length + ls.length ∧
      (runLines cfg n st ls).currentField = [] ∧
      (runLines cfg n st ls).currentRow = [] := by
  intro ls
  induction ls with
  | nil =>
    intro st _ _ hcf hcr
    exact ⟨rfl, hcf, hcr⟩
  | cons p rest ih =>
    intro st hmem hli hcf hcr
    have hst' : (processLine cfg p.2 st (decide (p.1 = n - 1))).inQuotes = false := by
      have := hmem (processLine cfg p.2 st (decide (p.1 = n - 1)))
      apply this
      simp [runStates]
    obtain ⟨h1, h2, h3, h4⟩ :=
      processLine_complete cfg hse p.2 st (decide (p.1 = n - 1)) hst'
    have htail : ∀ s ∈ runStates cfg n
        (processLine cfg p.2 st (decide (p.1 = n - 1))) rest,
        s.inQuotes = false := by
      intro s hs
      exact hmem s (by simp [runStates, hs])
    obtain ⟨r1, r2, r3⟩ := ih (processLine cfg p.2 st (decide (p.1 = n - 1)))
      htail (by omega) h1 h2
    refine ⟨?_, r2, r3⟩
    rw [show runLines cfg n st (p :: rest) =
      runLines cfg n (processLine cfg p.2 st (decide (p.1 = n - 1))) rest from rfl]
    rw [r1, h4, if_neg hli]
    simp [List.length_cons]
    omega

lemma splitOnNewline_ne_nil (l : List Char) : splitOnNewline l ≠ [] := by
  induction l with
  | nil => simp [splitOnNewline]
  | cons c rest ih =>
    simp only [splitOnNewline]
    by_cases hc : c = '\n'
    · simp [hc]
    · rw [if_neg hc]
      cases h : splitOnNewline rest with
      | nil => simp
      | cons a as => simp

/-- C8 (amended): with `skipRows = 0` and `skipEmptyLines = false`, the
number of tokenized data rows equals the number of physical lines
(after CRLF/LF normalisation) minus one for the header, PROVIDED no
physical line ends inside an open quoted field (every intermediate
tokenizer state is unquoted).  A quoted field spanning a line break
merges physical lines into one row, reducing the count — see the
counterexample. -/
theorem c8_row_count_per_line :
    ∀ (input : Str) (options : ParserOptions),
      (mkConfig options).skipRows = 0 →
      (mkConfig options).skipEmptyLines = false →
      (∀ s ∈ tokenizerStates input options, s.inQuotes = false) →
      (parseCSV input options).rows.length + 1 = (splitLines input).length := by
  intro input options h0 hse hq
  obtain ⟨l0, rest, hsplit⟩ : ∃ l0 rest, splitLines input = l0 :: rest := by
    unfold splitLines
    cases h : splitOnNewline input with
    | nil => exact absurd h (splitOnNewline_ne_nil input)
    | cons a as => exact ⟨stripTrailingCR a, as.map stripTrailingCR, by simp⟩
  have hrel : relevantLines (mkConfig options) input = (splitLines input).enum := by
    unfold relevantLines
    apply List.filter_eq_self.mpr
    intro a _
    simp [h0]
  have henum : (splitLines input).enum = (0, l0) :: rest.enumFrom 1 := by
    rw [hsplit, List.enum_cons]
  set n := (splitLines input).length with hn
  set st1 := processLine (mkConfig options) l0 initParseState
    (decide (0 = n - 1)) with hst1
  have hstates : tokenizerStates input options =
      st1 :: runStates (mkConfig options) n st1 (rest.enumFrom 1) := by
    simp only [tokenizerStates]
    rw [hrel, henum]
    rfl
  have hq1 : st1.inQuotes = false := by
    apply hq
    rw [hstates]
    exact List.mem_cons_self _ _
  obtain ⟨g1, g2, g3, g4⟩ :=
    processLine_complete (mkConfig options) hse l0 initParseState
      (decide (0 = n - 1)) hq1
  have hqtail : ∀ s ∈ runStates (mkConfig options) n st1 (rest.enumFrom 1),
      s.inQuotes = false := by
    intro s hs
    apply hq
    rw [hstates]
    exact List.mem_cons_of_mem _ hs
  obtain ⟨r1, r2, r3⟩ := runLines_count (mkConfig options) hse n
    (rest.enumFrom 1) st1 hqtail (by rw [g3]; simp [initParseState]) g1 g2
  have hrun : runLines (mkConfig options) n initParseState
      (relevantLines (mkConfig options) input) =
      runLines (mkConfig options) n st1 (rest.enumFrom 1) := by
    rw [hrel, henum]
    rfl
  have hfin : parseCSV input options =
      { headers := (finalizeParsing (runLines (mkConfig options) n st1
          (rest.enumFrom 1)) (mkConfig options)).headers
        rows := (finalizeParsing (runLines (mkConfig options) n st1
          (rest.enumFrom 1)) (mkConfig options)).rows } := by
    simp only [parseCSV]
    rw [← hn, hrun]
  have hfineq : finalizeParsing (runLines (mkConfig options) n st1
      (rest.enumFrom 1)) (mkConfig options) =
      runLines (mkConfig options) n st1 (rest.enumFrom 1) := by
    unfold finalizeParsing
    rw [if_neg]
    rw [r2, r3]
    simp
  rw [hfin]
  simp only [hfineq]
  rw [r1, hst1, g4, if_pos (by simp [initParseState])]
  rw [hn, hsplit]
  simp [initParseState, List.enumFrom_length]

/-- Witness for C8: a two-line quote-free input with
`skipEmptyLines = false` has exactly one data row. -/
theorem c8_row_count_per_line_witness :
    (parseCSV ("a,b\nc,d").toList
        { skipEmptyLines := some false }).rows.length + 1 =
      (splitLines (("a,b\nc,d").toList)).length :=
  c8_row_count_per_line (("a,b\nc,d").toList)
    { skipEmptyLines := some false } (by decide) (by decide) (by decide)

/-- C8 counterexample: the input `h\n"a\nb"` (a quoted field spanning a
line break) has three physical lines under `skipRows = 0`,
`skipEmptyLines = false`, but tokenizes to a single data row, not
3 − 1 = 2. -/
theorem c8_counterexample :
    (mkConfig { skipEmptyLines := some false }).skipRows = 0 ∧
    (mkConfig { skipEmptyLines := some false }).skipEmptyLines = false ∧
    (splitLines (("h\n\"a\nb\"").toList)).length = 3 ∧
    (parseCSV (("h\n\"a\nb\"").toList)
        { skipEmptyLines := some false }).rows.length = 1 ∧
    (parseCSV (("h\n\"a\nb\"").toList)
        { skipEmptyLines := some false }).rows.length ≠
      (splitLines (("h\n\"a\nb\"").toList)).length - 1 := by
  refine ⟨by decide, by decide, by decide, by decide, by decide⟩
